import Mathlib

/-!
Verification of the PeakInfer VS Code extension's analysis core
(`src/analysis.ts`, class `AnalysisRunner`): wire-response normalization,
severity remapping, per-file grouping and summary aggregation, and token
resolution.  The definitions below are a shallow embedding of that
TypeScript source; JavaScript truthiness on optional strings/numbers is
rendered explicitly (absent or empty string is falsy, a confidence of 0 is
falsy).  Wall-clock effects (`analyzedAt := new Date().toISOString()`) and
the network layer are environment inputs outside the pure model and are
omitted; everything the claims mention is carried over verbatim.
-/

namespace PeakInfer

/-- Internal severity enumeration of `Issue` (`analysis.ts` line 32). -/
inductive Severity where
  | critical
  | high
  | medium
  | low
deriving DecidableEq, Repr

/-- The `patterns` mapping of named optional booleans
(`analysis.ts` lines 19-25); an absent key is `none`. -/
structure Patterns where
  streaming : Option Bool := none
  batching : Option Bool := none
  retries : Option Bool := none
  caching : Option Bool := none
  fallback : Option Bool := none
deriving DecidableEq, Repr

/-- One issue of a wire inference point (`analysis.ts` lines 85-91).
The wire severity is kept as a raw string so that unknown values can be
observed by `mapSeverity`. -/
structure WireIssue where
  type : String
  severity : String
  headline : String
  evidence : String
  suggestedFix : Option String := none
deriving DecidableEq, Repr

/-- One wire inference point (`analysis.ts` lines 70-93).  Fields the
runtime code guards against being absent (`id`, `patterns`, `issues`,
`confidence`, and the optional classification strings) are `Option`s.
`confidence` is a rational standing for the JS number. -/
structure WirePoint where
  id : Option String := none
  file : String
  line : Nat
  column : Option Nat := none
  provider : Option String := none
  model : Option String := none
  framework : Option String := none
  patterns : Option Patterns := none
  issues : Option (List WireIssue) := none
  confidence : Option ℚ := none
deriving DecidableEq, Repr

/-- Internal issue (`analysis.ts` lines 30-42).  `type` is carried as the
raw wire string (the transform casts it without validating). -/
structure Issue where
  type : String
  severity : Severity
  title : String
  description : String
  impact : Option String := none
  fix : Option String := none
deriving DecidableEq, Repr

/-- Internal inference point (`analysis.ts` lines 11-28). -/
structure InferencePoint where
  id : String
  file : String
  line : Nat
  column : Option Nat
  provider : Option String
  model : Option String
  framework : Option String
  patterns : Patterns
  issues : List Issue
  confidence : ℚ
deriving DecidableEq, Repr

/-- Server-reported credits (`analysis.ts` lines 104-108). -/
structure ApiCredits where
  consumed : Nat
  remaining : Nat
  expiringSoon : Nat
deriving DecidableEq, Repr

/-- Internal credits: the server pair minus `expiringSoon`
(`analysis.ts` lines 56-59, 378-381). -/
structure Credits where
  consumed : Nat
  remaining : Nat
deriving DecidableEq, Repr

/-- The derived `summary` of an `AnalysisResult` (`analysis.ts` lines 49-55). -/
structure Summary where
  totalPoints : Nat
  criticalIssues : Nat
  warnings : Nat
  providers : List String
  models : List String
deriving DecidableEq, Repr

/-- One file's complete findings (`analysis.ts` lines 44-60).  The
`analyzedAt` wall-clock stamp is an environment effect and not modelled. -/
structure AnalysisResult where
  version : String
  file : String
  inferencePoints : List InferencePoint
  summary : Summary
  credits : Option Credits
deriving DecidableEq, Repr

/-- Embedding of `AnalysisRunner.mapSeverity` (`analysis.ts` lines 315-326): the wire
severity string is remapped through the fixed table, everything outside the
three known values landing in the default `medium` branch. -/
def mapSeverity (severity : String) : Severity :=
  if severity = "critical" then Severity.critical
  else if severity = "warning" then Severity.high
  else if severity = "info" then Severity.low
  else Severity.medium

/-- The issue mapping inside `AnalysisRunner.transformInferencePoint`
(`analysis.ts` lines 301-307). -/
def transformIssue (issue : WireIssue) : Issue :=
  { type := issue.type
    severity := mapSeverity issue.severity
    title := issue.headline
    description := issue.evidence
    impact := none
    fix := issue.suggestedFix }

/-- Embedding of `AnalysisRunner.transformInferencePoint` (`analysis.ts` lines 291-310).
JS `x || d` on an optional string is: keep `x` when present and non-empty,
else `d`; on an optional number: keep `x` when present and non-zero, else
`d`.  `apiPoint.patterns || \x7b\x7d` defaults an absent object. -/
def transformInferencePoint (apiPoint : WirePoint) : InferencePoint :=
  { id :=
      match apiPoint.id with
      | some s => if s = "" then apiPoint.file ++ ":" ++ toString apiPoint.line else s
      | none => apiPoint.file ++ ":" ++ toString apiPoint.line
    file := apiPoint.file
    line := apiPoint.line
    column := apiPoint.column
    provider := apiPoint.provider
    model := apiPoint.model
    framework := apiPoint.framework
    patterns := apiPoint.patterns.getD {}
    issues := (apiPoint.issues.getD []).map transformIssue
    confidence :=
      match apiPoint.confidence with
      | some c => if c = 0 then 0.9 else c
      | none => 0.9 }

/-- Accumulator of the aggregation loop in
`AnalysisRunner.createResultFromPoints` (`analysis.ts` lines 350-364). -/
structure AggState where
  providers : List String
  models : List String
  criticalIssues : Nat
  warnings : Nat
deriving DecidableEq, Repr

/-- JS `Set.add` on an insertion-ordered set rendered as a list. -/
def addUnique (xs : List String) (x : String) : List String :=
  if x ∈ xs then xs else xs ++ [x]

/-- Embedding of `if (point.provider) providers.add(point.provider)`: the truthiness
guard admits exactly a present, non-empty string. -/
def addIfPresent (acc : List String) (field : Option String) : List String :=
  match field with
  | some s => if s = "" then acc else addUnique acc s
  | none => acc

/-- The inner issues loop of `createResultFromPoints`
(`analysis.ts` lines 359-363). -/
def issueStep (st : AggState) (issue : Issue) : AggState :=
  if issue.severity = Severity.critical then
    { st with criticalIssues := st.criticalIssues + 1 }
  else if issue.severity = Severity.high ∨ issue.severity = Severity.medium then
    { st with warnings := st.warnings + 1 }
  else st

/-- One iteration of the points loop of `createResultFromPoints`
(`analysis.ts` lines 355-364). -/
def aggStep (st : AggState) (point : InferencePoint) : AggState :=
  let st := { st with
    providers := addIfPresent st.providers point.provider
    models := addIfPresent st.models point.model }
  point.issues.foldl issueStep st

/-- Embedding of `AnalysisRunner.createResultFromPoints` (`analysis.ts` lines 345-383). -/
def createResultFromPoints (fileName : String) (inferencePoints : List InferencePoint)
    (credits : Option ApiCredits) : AnalysisResult :=
  let st := inferencePoints.foldl aggStep
    { providers := [], models := [], criticalIssues := 0, warnings := 0 }
  { version := "1.0"
    file := fileName
    inferencePoints := inferencePoints
    summary :=
      { totalPoints := inferencePoints.length
        criticalIssues := st.criticalIssues
        warnings := st.warnings
        providers := st.providers
        models := st.models }
    credits := credits.map fun c => { consumed := c.consumed, remaining := c.remaining } }

/-- JS `s.endsWith(post)`: suffix test, rendered over the character
lists. -/
def jsEndsWith (s post : String) : Bool :=
  post.data.isSuffixOf s.data

/-- JS `String.prototype.split` with a single-character separator, over
the character list: splitting the empty list yields one empty piece, as
the JS split of an empty string yields one empty string. -/
def splitOnChar (sep : Char) : List Char → List (List Char)
  | [] => [[]]
  | c :: rest =>
    let r := splitOnChar sep rest
    if c = sep then [] :: r
    else
      match r with
      | [] => [[c]]
      | h :: t => (c :: h) :: t

/-- Embedding of `fileName.split(sep).pop() || empty` for sep the slash
(`analysis.ts` line 336): the leaf name of a path. -/
def basename (fileName : String) : String :=
  ⟨(splitOnChar '/' fileName.data).getLastD []⟩

/-- Embedding of `AnalysisRunner.transformApiResponse` (`analysis.ts` lines 331-340):
the single-file path filters the wire points to those matching the
requested file exactly or by leaf name, transforms them, and aggregates. -/
def transformApiResponse (fileName : String) (wirePoints : List WirePoint)
    (credits : Option ApiCredits) : AnalysisResult :=
  let inferencePoints :=
    (wirePoints.filter fun p =>
      p.file == fileName || jsEndsWith p.file (basename fileName)).map
      transformInferencePoint
  createResultFromPoints fileName inferencePoints credits

/-- Insertion into the `Map<string, InferencePoint[]>` of
`AnalysisRunner.analyzeWorkspace` (`analysis.ts` lines 233-239): a JS `Map`
keeps keys in first-insertion order, and a point is pushed onto its file's
group. -/
def insertPoint (groups : List (String × List InferencePoint)) (fileName : String)
    (point : InferencePoint) : List (String × List InferencePoint) :=
  match groups with
  | [] => [(fileName, [point])]
  | (k, v) :: rest =>
    if k = fileName then (k, v ++ [point]) :: rest
    else (k, v) :: insertPoint rest fileName point

/-- The grouping loop of `analyzeWorkspace` (`analysis.ts` lines 231-239). -/
def groupByFile (wirePoints : List WirePoint) : List (String × List InferencePoint) :=
  wirePoints.foldl (fun g p => insertPoint g p.file (transformInferencePoint p)) []

/-- The pure tail of `AnalysisRunner.analyzeWorkspace`
(`analysis.ts` lines 231-250): group the response's points by their wire
file tag, then build one result per non-empty group. -/
def analyzeWorkspaceResults (wirePoints : List WirePoint)
    (credits : Option ApiCredits) : List AnalysisResult :=
  (groupByFile wirePoints).filterMap fun kv =>
    if kv.2.length > 0 then some (createResultFromPoints kv.1 kv.2 credits) else none

/-- JS `String.prototype.trim`: strip whitespace from both ends, rendered
structurally over the character list. -/
def jsTrim (s : String) : String :=
  ⟨((s.data.dropWhile Char.isWhitespace).reverse.dropWhile Char.isWhitespace).reverse⟩

/-- Embedding of `AnalysisRunner.getToken` (`analysis.ts` lines 127-136):
`settingsToken && settingsToken.trim()` is truthy exactly when the config
value is present and non-empty after trimming. -/
def getToken (settingsToken : Option String) (envToken : Option String) : Option String :=
  match settingsToken with
  | some s => if jsTrim s = "" then envToken else some (jsTrim s)
  | none => envToken

/-- Specification-side count: the number of issues, across all points and
all issues of each point, satisfying a predicate. -/
def countIssues (pts : List InferencePoint) (f : Issue → Bool) : Nat :=
  (pts.map fun p => (p.issues.filter f).length).sum

/-- Specification-side first-appearance deduplication: the key order of a
JS `Map` built by insertion. -/
def dedupFirst (xs : List String) : List String :=
  xs.foldl addUnique []

/-- C1: normalization remaps wire severities by the fixed table —
wire critical to critical, wire warning to high, wire info to low, and any
other wire severity value to medium. -/
theorem mapSeverity_table (s : String)
    (h1 : s ≠ "critical") (h2 : s ≠ "warning") (h3 : s ≠ "info") :
    mapSeverity "critical" = Severity.critical ∧
    mapSeverity "warning" = Severity.high ∧
    mapSeverity "info" = Severity.low ∧
    mapSeverity s = Severity.medium := by
  refine ⟨by decide, by decide, by decide, ?_⟩
  simp [mapSeverity, h1, h2, h3]

/-- Witness for C1 at the concrete unknown wire severity value. -/
theorem mapSeverity_table_witness :
    mapSeverity "critical" = Severity.critical ∧
    mapSeverity "warning" = Severity.high ∧
    mapSeverity "info" = Severity.low ∧
    mapSeverity "bogus" = Severity.medium :=
  mapSeverity_table "bogus" (by decide) (by decide) (by decide)

/-- C2 counterexample: the wire confidence 0 lies in the interval from 0 to
1, yet normalization does not keep it — the JS truthiness default replaces
it with 0.9, so the normalized confidence is not the wire value. -/
theorem confidence_zero_not_kept :
    (transformInferencePoint
      { file := "a.py", line := 1, confidence := some 0 }).confidence ≠ 0 := by
  norm_num [transformInferencePoint]

/-- C2 (amended): the normalized confidence equals the wire confidence
whenever the wire payload carries a non-zero one, and equals 0.9 when the
wire payload omits the confidence field or carries the value 0. -/
theorem confidence_normalization (p : WirePoint) :
    (∀ c, p.confidence = some c → c ≠ 0 →
      (transformInferencePoint p).confidence = c) ∧
    ((p.confidence = none ∨ p.confidence = some 0) →
      (transformInferencePoint p).confidence = 0.9) := by
  constructor
  · intro c hc hne
    simp [transformInferencePoint, hc, hne]
  · rintro (h | h) <;> simp [transformInferencePoint, h]

/-- Witness for C2: a wire confidence of one half is kept, a wire
confidence of zero becomes 0.9, an omitted confidence becomes 0.9. -/
theorem confidence_normalization_witness :
    (transformInferencePoint
      { file := "a.py", line := 1, confidence := some (1/2) }).confidence = 1/2 ∧
    (transformInferencePoint
      { file := "a.py", line := 1, confidence := some 0 }).confidence = 0.9 ∧
    (transformInferencePoint { file := "a.py", line := 1 }).confidence = 0.9 :=
  ⟨(confidence_normalization
      { file := "a.py", line := 1, confidence := some (1/2) }).1 (1/2) rfl
      (by norm_num),
   (confidence_normalization
      { file := "a.py", line := 1, confidence := some 0 }).2 (Or.inr rfl),
   (confidence_normalization { file := "a.py", line := 1 }).2 (Or.inl rfl)⟩

/-- C3: the normalized id is the wire id when that field is present and a
non-empty string, and the composite string of file, a colon and the line
otherwise. -/
theorem id_normalization (p : WirePoint) :
    (∀ s, p.id = some s → s ≠ "" → (transformInferencePoint p).id = s) ∧
    ((p.id = none ∨ p.id = some "") →
      (transformInferencePoint p).id = p.file ++ ":" ++ toString p.line) := by
  constructor
  · intro s hs hne
    simp [transformInferencePoint, hs, hne]
  · rintro (h | h) <;> simp [transformInferencePoint, h]

/-- Witness for C3: a present non-empty id is kept; an absent id is
synthesized from file and line. -/
theorem id_normalization_witness :
    (transformInferencePoint
      { id := some "pt7", file := "a.py", line := 3 }).id = "pt7" ∧
    (transformInferencePoint { file := "a.py", line := 3 }).id = "a.py:3" :=
  ⟨(id_normalization _).1 "pt7" rfl (by decide),
   (id_normalization _).2 (Or.inl rfl)⟩

/-- C6: the token resolver returns the trimmed configuration value when it
is non-empty after trimming, and the environment fallback when the
configuration value is absent or empty after trimming. -/
theorem getToken_precedence (settingsToken envToken : Option String) :
    (∀ s, settingsToken = some s → jsTrim s ≠ "" →
      getToken settingsToken envToken = some (jsTrim s)) ∧
    ((settingsToken = none ∨ (∃ s, settingsToken = some s ∧ jsTrim s = "")) →
      getToken settingsToken envToken = envToken) := by
  constructor
  · intro s hs hne
    simp [getToken, hs, hne]
  · rintro (h | ⟨s, hs, htrim⟩) <;> simp [getToken, *]

/-- Witness for C6: with a whitespace-only configuration value and the
environment variable set, the resolver returns the environment value;
with a padded non-empty configuration value it returns the trimmed value. -/
theorem getToken_precedence_witness :
    getToken (some "  ") (some "envtok") = some "envtok" ∧
    getToken (some " abc ") (some "envtok") = some "abc" :=
  ⟨(getToken_precedence (some "  ") (some "envtok")).2
      (Or.inr ⟨"  ", rfl, by decide⟩),
   (getToken_precedence (some " abc ") (some "envtok")).1 " abc " rfl (by decide)⟩

/-- C9: normalization is total on a sparse wire point carrying only file
and line — the result has the synthesized id, an empty patterns mapping,
an empty issues sequence, the default confidence, and every absent
optional field stays absent. -/
theorem transform_sparse_total (file : String) (line : Nat) :
    transformInferencePoint { file := file, line := line } =
      { id := file ++ ":" ++ toString line
        file := file
        line := line
        column := none
        provider := none
        model := none
        framework := none
        patterns := {}
        issues := []
        confidence := 0.9 } := rfl

lemma foldl_issueStep_crit (issues : List Issue) (st : AggState) :
    (issues.foldl issueStep st).criticalIssues =
      st.criticalIssues +
        (issues.filter fun i => i.severity == Severity.critical).length := by
  induction issues generalizing st with
  | nil => simp
  | cons i rest ih =>
    rw [List.foldl_cons, List.filter_cons, ih]
    cases hs : i.severity <;> simp [issueStep, hs]
    omega

lemma foldl_issueStep_warn (issues : List Issue) (st : AggState) :
    (issues.foldl issueStep st).warnings =
      st.warnings +
        (issues.filter fun i =>
          i.severity == Severity.high || i.severity == Severity.medium).length := by
  induction issues generalizing st with
  | nil => simp
  | cons i rest ih =>
    rw [List.foldl_cons, List.filter_cons, ih]
    cases hs : i.severity <;> simp [issueStep, hs] <;> omega

lemma foldl_issueStep_providers (issues : List Issue) (st : AggState) :
    (issues.foldl issueStep st).providers = st.providers := by
  induction issues generalizing st with
  | nil => rfl
  | cons i rest ih =>
    rw [List.foldl_cons, ih]
    cases hs : i.severity <;> simp [issueStep, hs]

lemma foldl_issueStep_models (issues : List Issue) (st : AggState) :
    (issues.foldl issueStep st).models = st.models := by
  induction issues generalizing st with
  | nil => rfl
  | cons i rest ih =>
    rw [List.foldl_cons, ih]
    cases hs : i.severity <;> simp [issueStep, hs]

lemma foldl_aggStep_crit (pts : List InferencePoint) (st : AggState) :
    (pts.foldl aggStep st).criticalIssues =
      st.criticalIssues + countIssues pts (fun i => i.severity == Severity.critical) := by
  induction pts generalizing st with
  | nil => simp [countIssues]
  | cons p rest ih =>
    rw [List.foldl_cons, ih]
    simp only [aggStep, foldl_issueStep_crit, countIssues, List.map_cons, List.sum_cons]
    omega

lemma foldl_aggStep_warn (pts : List InferencePoint) (st : AggState) :
    (pts.foldl aggStep st).warnings =
      st.warnings +
        countIssues pts (fun i =>
          i.severity == Severity.high || i.severity == Severity.medium) := by
  induction pts generalizing st with
  | nil => simp [countIssues]
  | cons p rest ih =>
    rw [List.foldl_cons, ih]
    simp only [aggStep, foldl_issueStep_warn, countIssues, List.map_cons, List.sum_cons]
    omega

lemma count_crit_add_low_le (issues : List Issue) :
    (issues.filter fun i => i.severity == Severity.critical).length +
      (issues.filter fun i => i.severity == Severity.low).length ≤ issues.length := by
  induction issues with
  | nil => simp
  | cons i rest ih =>
    rw [List.filter_cons, List.filter_cons]
    cases hs : i.severity <;> simp [hs] <;> omega

lemma countIssues_crit_add_low_le (pts : List InferencePoint) :
    countIssues pts (fun i => i.severity == Severity.critical) +
      countIssues pts (fun i => i.severity == Severity.low) ≤
    countIssues pts (fun _ => true) := by
  induction pts with
  | nil => simp [countIssues]
  | cons p rest ih =>
    simp only [countIssues, List.map_cons, List.sum_cons] at ih ⊢
    have hp := count_crit_add_low_le p.issues
    simp only [List.filter_true, List.length_map] at ih ⊢
    omega

/-- C4: the summary counts criticalIssues as the number of issues across
all points whose severity is critical, warnings as the number whose
severity is high or medium; low-severity issues land in neither bucket, so
criticalIssues plus the low count never exceeds the total issue count. -/
theorem summary_counts (fileName : String) (pts : List InferencePoint)
    (credits : Option ApiCredits) :
    (createResultFromPoints fileName pts credits).summary.criticalIssues =
      countIssues pts (fun i => i.severity == Severity.critical) ∧
    (createResultFromPoints fileName pts credits).summary.warnings =
      countIssues pts (fun i =>
        i.severity == Severity.high || i.severity == Severity.medium) ∧
    (createResultFromPoints fileName pts credits).summary.criticalIssues +
        countIssues pts (fun i => i.severity == Severity.low) ≤
      countIssues pts (fun _ => true) := by
  have hcrit : (createResultFromPoints fileName pts credits).summary.criticalIssues =
      countIssues pts (fun i => i.severity == Severity.critical) := by
    simp [createResultFromPoints, foldl_aggStep_crit]
  have hwarn : (createResultFromPoints fileName pts credits).summary.warnings =
      countIssues pts (fun i =>
        i.severity == Severity.high || i.severity == Severity.medium) := by
    simp [createResultFromPoints, foldl_aggStep_warn]
  refine ⟨hcrit, hwarn, ?_⟩
  rw [hcrit]
  exact countIssues_crit_add_low_le pts

lemma mem_addUnique {xs : List String} {x y : String} :
    y ∈ addUnique xs x ↔ y ∈ xs ∨ y = x := by
  by_cases h : x ∈ xs <;> simp [addUnique, h]
  exact fun he => he ▸ h

lemma nodup_addUnique {xs : List String} (h : xs.Nodup) (x : String) :
    (addUnique xs x).Nodup := by
  by_cases hx : x ∈ xs <;> simp only [addUnique, hx, if_true, if_false, h]
  exact List.Nodup.append h (List.nodup_singleton x)
    (List.disjoint_singleton.mpr hx)

lemma mem_addIfPresent {acc : List String} {o : Option String} {y : String} :
    y ∈ addIfPresent acc o ↔ y ∈ acc ∨ (y ≠ "" ∧ o = some y) := by
  cases o with
  | none => simp [addIfPresent]
  | some s =>
    by_cases h : s = ""
    · subst h
      simp only [addIfPresent, if_pos rfl, Option.some.injEq]
      constructor
      · exact Or.inl
      · rintro (hy | ⟨hne, rfl⟩)
        · exact hy
        · exact absurd rfl hne
    · simp only [addIfPresent, if_neg h, mem_addUnique, Option.some.injEq]
      constructor
      · rintro (hy | rfl)
        · exact Or.inl hy
        · exact Or.inr ⟨h, rfl⟩
      · rintro (hy | ⟨hne, rfl⟩)
        · exact Or.inl hy
        · exact Or.inr rfl

lemma nodup_addIfPresent {acc : List String} (h : acc.Nodup) (o : Option String) :
    (addIfPresent acc o).Nodup := by
  cases o with
  | none => exact h
  | some s =>
    by_cases hs : s = "" <;> simp [addIfPresent, hs, h, nodup_addUnique]

lemma mem_foldl_addIfPresent (get : InferencePoint → Option String)
    (pts : List InferencePoint) (acc : List String) (y : String) :
    (y ∈ pts.foldl (fun a p => addIfPresent a (get p)) acc ↔
      y ∈ acc ∨ (y ≠ "" ∧ ∃ p ∈ pts, get p = some y)) := by
  induction pts generalizing acc with
  | nil => simp
  | cons p rest ih =>
    rw [List.foldl_cons, ih, mem_addIfPresent]
    constructor
    · rintro ((hy | ⟨hne, hp⟩) | ⟨hne, q, hq, hgq⟩)
      · exact Or.inl hy
      · exact Or.inr ⟨hne, p, List.mem_cons_self .., hp⟩
      · exact Or.inr ⟨hne, q, List.mem_cons_of_mem _ hq, hgq⟩
    · rintro (hy | ⟨hne, q, hq, hgq⟩)
      · exact Or.inl (Or.inl hy)
      · rcases List.mem_cons.mp hq with rfl | hq2
        · exact Or.inl (Or.inr ⟨hne, hgq⟩)
        · exact Or.inr ⟨hne, q, hq2, hgq⟩

lemma nodup_foldl_addIfPresent (get : InferencePoint → Option String)
    (pts : List InferencePoint) (acc : List String) (h : acc.Nodup) :
    (pts.foldl (fun a p => addIfPresent a (get p)) acc).Nodup := by
  induction pts generalizing acc with
  | nil => exact h
  | cons p rest ih => exact ih _ (nodup_addIfPresent h _)

lemma foldl_aggStep_providers (pts : List InferencePoint) (st : AggState) :
    (pts.foldl aggStep st).providers =
      pts.foldl (fun a p => addIfPresent a p.provider) st.providers := by
  induction pts generalizing st with
  | nil => rfl
  | cons p rest ih =>
    rw [List.foldl_cons, List.foldl_cons, ih]
    simp [aggStep, foldl_issueStep_providers]

lemma foldl_aggStep_models (pts : List InferencePoint) (st : AggState) :
    (pts.foldl aggStep st).models =
      pts.foldl (fun a p => addIfPresent a p.model) st.models := by
  induction pts generalizing st with
  | nil => rfl
  | cons p rest ih =>
    rw [List.foldl_cons, List.foldl_cons, ih]
    simp [aggStep, foldl_issueStep_models]

/-- C5: the summary's providers and models are deduplicated sets to which
a point contributes its provider, respectively model, exactly when that
optional field is present and non-empty. -/
theorem providers_models_sets (fileName : String) (pts : List InferencePoint)
    (credits : Option ApiCredits) :
    ((createResultFromPoints fileName pts credits).summary.providers.Nodup ∧
      ∀ s, s ∈ (createResultFromPoints fileName pts credits).summary.providers ↔
        s ≠ "" ∧ ∃ p ∈ pts, p.provider = some s) ∧
    ((createResultFromPoints fileName pts credits).summary.models.Nodup ∧
      ∀ s, s ∈ (createResultFromPoints fileName pts credits).summary.models ↔
        s ≠ "" ∧ ∃ p ∈ pts, p.model = some s) := by
  have hp : (createResultFromPoints fileName pts credits).summary.providers =
      pts.foldl (fun a p => addIfPresent a p.provider) [] := by
    simp [createResultFromPoints, foldl_aggStep_providers]
  have hm : (createResultFromPoints fileName pts credits).summary.models =
      pts.foldl (fun a p => addIfPresent a p.model) [] := by
    simp [createResultFromPoints, foldl_aggStep_models]
  rw [hp, hm]
  refine ⟨⟨nodup_foldl_addIfPresent _ _ _ List.nodup_nil, fun s => ?_⟩,
    ⟨nodup_foldl_addIfPresent _ _ _ List.nodup_nil, fun s => ?_⟩⟩
  · rw [mem_foldl_addIfPresent]
    simp
  · rw [mem_foldl_addIfPresent]
    simp

lemma mem_foldl_addUnique (xs : List String) (acc : List String) (y : String) :
    y ∈ xs.foldl addUnique acc ↔ y ∈ acc ∨ y ∈ xs := by
  induction xs generalizing acc with
  | nil => simp
  | cons x rest ih =>
    simp only [List.foldl_cons, ih, mem_addUnique, List.mem_cons]
    tauto

lemma mem_dedupFirst {xs : List String} {y : String} :
    y ∈ dedupFirst xs ↔ y ∈ xs := by
  rw [dedupFirst, mem_foldl_addUnique]
  simp

lemma nodup_foldl_addUnique (xs : List String) (acc : List String) (h : acc.Nodup) :
    (xs.foldl addUnique acc).Nodup := by
  induction xs generalizing acc with
  | nil => exact h
  | cons x rest ih => exact ih _ (nodup_addUnique h x)

lemma nodup_dedupFirst (xs : List String) : (dedupFirst xs).Nodup :=
  nodup_foldl_addUnique xs [] List.nodup_nil

lemma insertPoint_keys (g : List (String × List InferencePoint)) (f : String)
    (pt : InferencePoint) :
    (insertPoint g f pt).map Prod.fst = addUnique (g.map Prod.fst) f := by
  induction g with
  | nil => simp [insertPoint, addUnique]
  | cons kv rest ih =>
    obtain ⟨k, v⟩ := kv
    by_cases h : k = f
    · subst h
      simp [insertPoint, addUnique]
    · simp only [insertPoint, if_neg h, List.map_cons, ih, addUnique, List.mem_cons]
      by_cases hf : f ∈ rest.map Prod.fst
      · simp [hf, Ne.symm h]
      · simp [hf, Ne.symm h]

lemma insertPoint_mem_cases {g : List (String × List InferencePoint)} {f k : String}
    {pt : InferencePoint} {v : List InferencePoint}
    (hnd : (g.map Prod.fst).Nodup)
    (h : (k, v) ∈ insertPoint g f pt) :
    (k ≠ f ∧ (k, v) ∈ g) ∨
    (k = f ∧ ∃ v0, (k, v0) ∈ g ∧ v = v0 ++ [pt]) ∨
    (k = f ∧ v = [pt] ∧ f ∉ g.map Prod.fst) := by
  induction g with
  | nil =>
    simp only [insertPoint, List.mem_singleton, Prod.mk.injEq] at h
    exact Or.inr (Or.inr ⟨h.1, h.2, by simp⟩)
  | cons kv rest ih =>
    obtain ⟨k0, v0⟩ := kv
    simp only [List.map_cons, List.nodup_cons] at hnd
    by_cases h0 : k0 = f
    · subst h0
      rw [show insertPoint ((k0, v0) :: rest) k0 pt = (k0, v0 ++ [pt]) :: rest from by
        simp [insertPoint]] at h
      rcases List.mem_cons.mp h with heq | hmem
      · simp only [Prod.mk.injEq] at heq
        obtain ⟨rfl, rfl⟩ := heq
        exact Or.inr (Or.inl ⟨rfl, v0, List.mem_cons_self .., rfl⟩)
      · have hk : k ∈ rest.map Prod.fst := by
          exact List.mem_map.mpr ⟨(k, v), hmem, rfl⟩
        exact Or.inl ⟨fun hkf => hnd.1 (hkf ▸ hk), List.mem_cons_of_mem _ hmem⟩
    · rw [show insertPoint ((k0, v0) :: rest) f pt = (k0, v0) :: insertPoint rest f pt from by
        simp [insertPoint, h0]] at h
      rcases List.mem_cons.mp h with heq | hmem
      · simp only [Prod.mk.injEq] at heq
        obtain ⟨rfl, rfl⟩ := heq
        exact Or.inl ⟨h0, List.mem_cons_self ..⟩
      · rcases ih hnd.2 hmem with ⟨hkf, hin⟩ | ⟨rfl, w, hw, rfl⟩ | ⟨rfl, rfl, hnin⟩
        · exact Or.inl ⟨hkf, List.mem_cons_of_mem _ hin⟩
        · exact Or.inr (Or.inl ⟨rfl, w, List.mem_cons_of_mem _ hw, rfl⟩)
        · refine Or.inr (Or.inr ⟨rfl, rfl, ?_⟩)
          simp only [List.map_cons, List.mem_cons]
          rintro (hkk | hmm)
          · exact h0 hkk.symm
          · exact hnin hmm

lemma groupByFile_foldl_inv (pts : List WirePoint) :
    ∀ (done : List WirePoint) (g : List (String × List InferencePoint)),
      g.map Prod.fst = dedupFirst (done.map WirePoint.file) →
      (∀ k v, (k, v) ∈ g →
        v = (done.filter fun p => p.file == k).map transformInferencePoint) →
      ((pts.foldl (fun g p => insertPoint g p.file (transformInferencePoint p)) g).map
          Prod.fst = dedupFirst ((done ++ pts).map WirePoint.file)) ∧
      (∀ k v,
        (k, v) ∈ pts.foldl (fun g p => insertPoint g p.file (transformInferencePoint p)) g →
        v = ((done ++ pts).filter fun p => p.file == k).map transformInferencePoint) := by
  induction pts with
  | nil =>
    intro done g h1 h2
    simpa using ⟨h1, h2⟩
  | cons p rest ih =>
    intro done g h1 h2
    rw [List.foldl_cons]
    have hnd : (g.map Prod.fst).Nodup := by
      rw [h1]; exact nodup_dedupFirst _
    have h1' : (insertPoint g p.file (transformInferencePoint p)).map Prod.fst =
        dedupFirst ((done ++ [p]).map WirePoint.file) := by
      rw [insertPoint_keys, h1, List.map_append]
      simp [dedupFirst, List.foldl_append]
    have h2' : ∀ k v, (k, v) ∈ insertPoint g p.file (transformInferencePoint p) →
        v = ((done ++ [p]).filter fun q => q.file == k).map transformInferencePoint := by
      intro k v hv
      rcases insertPoint_mem_cases hnd hv with
        ⟨hkf, hmem⟩ | ⟨rfl, v0, hv0, rfl⟩ | ⟨rfl, rfl, hnin⟩
      · rw [h2 k v hmem, List.filter_append, List.filter_singleton]
        have : (p.file == k) = false := by
          simp [Ne.symm hkf]
        simp [this]
      · rw [h2 _ _ hv0]
        rw [List.filter_append, List.filter_singleton]
        simp
      · rw [h1, mem_dedupFirst] at hnin
        have hdone : (done.filter fun q => q.file == p.file) = [] := by
          rw [List.filter_eq_nil_iff]
          intro q hq
          simp only [beq_iff_eq]
          exact fun hqf => hnin (hqf ▸ List.mem_map_of_mem WirePoint.file hq)
        rw [List.filter_append, List.filter_singleton, hdone]
        simp
    have := ih (done ++ [p]) _ h1' h2'
    simpa using this

lemma groupByFile_keys (wirePoints : List WirePoint) :
    (groupByFile wirePoints).map Prod.fst = dedupFirst (wirePoints.map WirePoint.file) := by
  have := groupByFile_foldl_inv wirePoints [] [] (by simp [dedupFirst]) (by simp)
  simpa [groupByFile] using this.1

lemma groupByFile_groups (wirePoints : List WirePoint) :
    ∀ k v, (k, v) ∈ groupByFile wirePoints →
      v = (wirePoints.filter fun p => p.file == k).map transformInferencePoint := by
  have := groupByFile_foldl_inv wirePoints [] [] (by simp [dedupFirst]) (by simp)
  simpa [groupByFile] using this.2

lemma groupByFile_vals_ne_nil (wirePoints : List WirePoint) :
    ∀ kv ∈ groupByFile wirePoints, kv.2 ≠ [] := by
  rintro ⟨k, v⟩ hkv
  have hk : k ∈ (groupByFile wirePoints).map Prod.fst :=
    List.mem_map.mpr ⟨(k, v), hkv, rfl⟩
  rw [groupByFile_keys, mem_dedupFirst, List.mem_map] at hk
  obtain ⟨p, hp, hpf⟩ := hk
  have hv := groupByFile_groups wirePoints k v hkv
  have hmem : transformInferencePoint p ∈ v := by
    rw [hv]
    exact List.mem_map_of_mem _ (List.mem_filter.mpr ⟨hp, by simp [hpf]⟩)
  exact List.ne_nil_of_mem hmem

lemma filterMap_createResult (l : List (String × List InferencePoint))
    (credits : Option ApiCredits) (h : ∀ kv ∈ l, kv.2 ≠ []) :
    (l.filterMap fun kv =>
      if kv.2.length > 0 then some (createResultFromPoints kv.1 kv.2 credits)
      else none) =
      l.map fun kv => createResultFromPoints kv.1 kv.2 credits := by
  induction l with
  | nil => rfl
  | cons kv rest ih =>
    rw [List.filterMap_cons, List.map_cons]
    have hpos : kv.2.length > 0 :=
      List.length_pos.mpr (h kv (List.mem_cons_self ..))
    simp only [hpos, if_pos]
    rw [ih fun a ha => h a (List.mem_cons_of_mem _ ha)]

lemma analyzeWorkspaceResults_eq_map (wirePoints : List WirePoint)
    (credits : Option ApiCredits) :
    analyzeWorkspaceResults wirePoints credits =
      (groupByFile wirePoints).map fun kv =>
        createResultFromPoints kv.1 kv.2 credits :=
  filterMap_createResult (groupByFile wirePoints) credits
    (groupByFile_vals_ne_nil wirePoints)

/-- C7: the workspace path groups the response's inference points by their
wire file tag, yielding exactly one result per distinct file value, ordered
by first appearance, each holding exactly the points tagged with that file
in source order. -/
theorem workspace_grouping (wirePoints : List WirePoint) (credits : Option ApiCredits) :
    ((analyzeWorkspaceResults wirePoints credits).map AnalysisResult.file =
      dedupFirst (wirePoints.map WirePoint.file)) ∧
    ((analyzeWorkspaceResults wirePoints credits).map AnalysisResult.file).Nodup ∧
    (∀ r ∈ analyzeWorkspaceResults wirePoints credits,
      r.inferencePoints =
        (wirePoints.filter fun p => p.file == r.file).map transformInferencePoint) := by
  have hmapfile : (analyzeWorkspaceResults wirePoints credits).map AnalysisResult.file =
      dedupFirst (wirePoints.map WirePoint.file) := by
    rw [analyzeWorkspaceResults_eq_map, List.map_map]
    exact groupByFile_keys wirePoints
  refine ⟨hmapfile, ?_, ?_⟩
  · rw [hmapfile]
    exact nodup_dedupFirst _
  · intro r hr
    rw [analyzeWorkspaceResults_eq_map, List.mem_map] at hr
    obtain ⟨⟨k, v⟩, hkv, rfl⟩ := hr
    exact groupByFile_groups wirePoints k v hkv

/-- Witness for C7: the response with two points tagged b.ts and one
tagged c.ts yields exactly the two results b.ts then c.ts, with point
counts two and one. -/
theorem workspace_grouping_witness :
    ((analyzeWorkspaceResults
        [{ file := "b.ts", line := 1 }, { file := "b.ts", line := 2 },
          { file := "c.ts", line := 3 }] none).map AnalysisResult.file =
      ["b.ts", "c.ts"]) ∧
    ((analyzeWorkspaceResults
        [{ file := "b.ts", line := 1 }, { file := "b.ts", line := 2 },
          { file := "c.ts", line := 3 }] none).map
        fun r => r.inferencePoints.length) = [2, 1] := by
  constructor
  · rw [(workspace_grouping
      [{ file := "b.ts", line := 1 }, { file := "b.ts", line := 2 },
        { file := "c.ts", line := 3 }] none).1]
    decide
  · decide

/-- C10: every result of the workspace path holds at least one inference
point, and its file value is carried by some point of the response — a
file without points yields no result entry. -/
theorem workspace_results_nonempty (wirePoints : List WirePoint)
    (credits : Option ApiCredits) :
    ∀ r ∈ analyzeWorkspaceResults wirePoints credits,
      1 ≤ r.summary.totalPoints ∧ r.file ∈ wirePoints.map WirePoint.file := by
  intro r hr
  rw [analyzeWorkspaceResults_eq_map, List.mem_map] at hr
  obtain ⟨⟨k, v⟩, hkv, rfl⟩ := hr
  constructor
  · have hne := groupByFile_vals_ne_nil wirePoints (k, v) hkv
    have : 0 < v.length := List.length_pos.mpr hne
    simpa [createResultFromPoints] using this
  · have hk : k ∈ (groupByFile wirePoints).map Prod.fst :=
      List.mem_map.mpr ⟨(k, v), hkv, rfl⟩
    rw [groupByFile_keys, mem_dedupFirst] at hk
    exact hk

/-- Witness for C10 at a one-point response. -/
theorem workspace_results_nonempty_witness :
    1 ≤ (createResultFromPoints "a.py"
        [transformInferencePoint { file := "a.py", line := 1 }]
        none).summary.totalPoints ∧
    (createResultFromPoints "a.py"
        [transformInferencePoint { file := "a.py", line := 1 }] none).file ∈
      ([{ file := "a.py", line := 1 }] : List WirePoint).map WirePoint.file :=
  workspace_results_nonempty [{ file := "a.py", line := 1 }] none
    (createResultFromPoints "a.py"
      [transformInferencePoint { file := "a.py", line := 1 }] none)
    (show _ ∈ [createResultFromPoints "a.py"
        [transformInferencePoint { file := "a.py", line := 1 }] none]
      from List.mem_singleton_self _)

/-- C8: in every result of either path, each inference point's file equals
the result's file or ends with the leaf name of the result's file. -/
theorem result_points_file_match (fileName : String) (wirePoints : List WirePoint)
    (credits : Option ApiCredits) :
    (∀ q ∈ (transformApiResponse fileName wirePoints credits).inferencePoints,
      q.file = (transformApiResponse fileName wirePoints credits).file ∨
        jsEndsWith q.file
          (basename (transformApiResponse fileName wirePoints credits).file) = true) ∧
    (∀ r ∈ analyzeWorkspaceResults wirePoints credits, ∀ q ∈ r.inferencePoints,
      q.file = r.file ∨ jsEndsWith q.file (basename r.file) = true) := by
  constructor
  · intro q hq
    have hfile : (transformApiResponse fileName wirePoints credits).file = fileName := rfl
    rw [hfile]
    have hpts : (transformApiResponse fileName wirePoints credits).inferencePoints =
        (wirePoints.filter fun p =>
          p.file == fileName || jsEndsWith p.file (basename fileName)).map
          transformInferencePoint := rfl
    rw [hpts, List.mem_map] at hq
    obtain ⟨p, hp, rfl⟩ := hq
    have hcond := (List.mem_filter.mp hp).2
    have hqfile : (transformInferencePoint p).file = p.file := rfl
    rw [hqfile]
    rcases Bool.or_eq_true_iff.mp hcond with h | h
    · exact Or.inl (by simpa using h)
    · exact Or.inr h
  · intro r hr q hq
    rw [analyzeWorkspaceResults_eq_map, List.mem_map] at hr
    obtain ⟨⟨k, v⟩, hkv, rfl⟩ := hr
    have hrfile : (createResultFromPoints k v credits).file = k := rfl
    have hrpts : (createResultFromPoints k v credits).inferencePoints = v := rfl
    rw [hrpts] at hq
    rw [hrfile]
    rw [groupByFile_groups wirePoints k v hkv, List.mem_map] at hq
    obtain ⟨p, hp, rfl⟩ := hq
    have hcond := (List.mem_filter.mp hp).2
    exact Or.inl (by simpa using hcond)

/-- Witness for C8: the single-file path queried for dir/a.py accepts the
point tagged a.py through the leaf-name match. -/
theorem result_points_file_match_witness :
    (transformInferencePoint { file := "a.py", line := 1 }).file = "dir/a.py" ∨
      jsEndsWith (transformInferencePoint { file := "a.py", line := 1 }).file
        (basename "dir/a.py") = true :=
  (result_points_file_match "dir/a.py" [{ file := "a.py", line := 1 }] none).1
    (transformInferencePoint { file := "a.py", line := 1 })
    (show _ ∈ [transformInferencePoint { file := "a.py", line := 1 }]
      from List.mem_singleton_self _)

end PeakInfer
